import Mathlib

/-!
Shallow embedding of jonnywang/utpools (src/utpools.go), a Unix-domain-socket
relay in front of a pooled TCP backend. The embedding follows the Go source
function by function; concurrency is modelled by explicit traces (lists of
read results, channel messages, or scheduler events) and nondeterministic
choices (dispatch-loop readiness, select winners) are oracle parameters.
-/

namespace Utpools

/-- `conn.Read(b)` outcome as the Go code consumes it (utpools.go:135-141):
the code first branches on `err != nil` (discarding `n` in that case) and
classifies the error by `nerr, ok := err.(net.Error); ok && nerr.Timeout()`;
so an error is modelled by its timeout classification alone, and a
successful read by the bytes it wrote into the buffer. -/
inductive ReadResult where
  | ok (data : List Nat)
  | err (timeout : Bool)
deriving DecidableEq, Repr

/-- Size of the pump read buffer `b := make([]byte, 1024)` (utpools.go:132). -/
def readBufSize : Nat := 1024

/-- The publish `select` waits `time.Second * 10` (utpools.go:148). -/
def publishTimeoutSeconds : Nat := 10

/-- Result of running the pump goroutine body (the `for` loop of
utpools.go:134-152) over a trace of read results.
`sent` are the messages delivered on channel `c` in order (`none` is the
`nil` sentinel); `dropped` are the chunks abandoned when the publish
`select` hit its `time.After` arm; `finished` records whether the loop
exited via `break` (a trace that shows no error is a still-running prefix). -/
structure LoopOut where
  sent : List (Option (List Nat))
  dropped : List (List Nat)
  finished : Bool
deriving DecidableEq, Repr

/-- The pump loop of `chanFromConn` (utpools.go:134-152).
`buf` is the reused read buffer `b`; a successful read of `data` overwrites
its first `data.length` bytes (`n, err := conn.Read(b)`), so the buffer
becomes `data ++ buf.drop data.length`. On `err != nil` the pump sends
`nil` unless the error is timeout-classified, then breaks. On `n > 0` it
copies `b[:n]` into a fresh `res` and offers it on `c`; `ready k` tells
whether the dispatch loop receives the `k`-th offer within the 10-second
window (`case c <- res` vs `case <-time.After`), and the `break` in the
timeout arm only exits the `select`, so the loop continues either way. -/
def pumpLoop (buf : List Nat) (ready : Nat → Bool) (k : Nat) :
    List ReadResult → LoopOut
  | [] => ⟨[], [], false⟩
  | .err t :: _ => if t then ⟨[], [], true⟩ else ⟨[none], [], true⟩
  | .ok data :: rest =>
      let n := data.length
      let b := data ++ buf.drop n
      if n > 0 then
        let res := b.take n
        let out := pumpLoop b ready (k + 1) rest
        if ready k then ⟨some res :: out.sent, out.dropped, out.finished⟩
        else ⟨out.sent, res :: out.dropped, out.finished⟩
      else pumpLoop b ready k rest

/-- Observable behaviour of one `chanFromConn` pump (utpools.go:128-162):
the loop result plus the epilogue `close(c)` and, when `pool != nil`
(`hasPool`), `pool.Put(conn)`. `Pipe` creates the client-facing pump with
`nil` pool and the backend-facing pump with the real pool
(utpools.go:166-167). -/
structure PumpOut where
  sent : List (Option (List Nat))
  dropped : List (List Nat)
  closed : Bool
  putDone : Bool
deriving DecidableEq, Repr

/-- `chanFromConn` (utpools.go:128-162) run over a trace of reads: the pump
loop starting from the fresh 1024-byte buffer, followed by `close(c)` and
the conditional `pool.Put(conn)` — both of which happen exactly when the
loop has exited. -/
def chanFromConn (hasPool : Bool) (ready : Nat → Bool)
    (reads : List ReadResult) : PumpOut :=
  let out := pumpLoop (List.replicate readBufSize 0) ready 0 reads
  ⟨out.sent, out.dropped, out.finished, out.finished && hasPool⟩

/-- Which pump a channel message came from in `Pipe`: `sc` (the client
connection `src`) or `dc` (the backend connection `dst`), utpools.go:166-167. -/
inductive Side where
  | client
  | backend
deriving DecidableEq, Repr

/-- One message received by the dispatch `select` (utpools.go:170-184):
its side and the `[]byte` value, `none` being the `nil` sentinel. -/
abbrev PipeMsg := Side × Option (List Nat)

/-- The grace deadline `dst.SetDeadline(time.Now().Add(time.Second * 10))`
set on the backend when the client pump ends (utpools.go:173). -/
def graceDeadlineSeconds : Nat := 10

/-- Observable behaviour of the `Pipe` dispatch loop (utpools.go:169-185).
`dstWrites` / `srcWrites` are the chunks passed to `dst.Write` / `src.Write`
in order; `writeResults` records the `(n, err)` values those calls returned
(the Go code discards them); `deadlineSet` whether `dst.SetDeadline` ran;
`returned` whether the loop hit a `return`. -/
structure PipeOut where
  dstWrites : List (List Nat)
  srcWrites : List (List Nat)
  writeResults : List (Nat × Bool)
  deadlineSet : Bool
  returned : Bool
deriving DecidableEq, Repr

/-- The `for`/`select` dispatch loop of `Pipe` (utpools.go:169-185) run over
an interleaved trace of messages from the two pumps (the `select` picks
whichever channel is ready first; the trace order is that choice). `w k` is
the `(n, err)` result the `k`-th write call returns; the code never
inspects it. A `nil` from `sc` sets the 10-second deadline on `dst` and
returns; a `nil` from `dc` returns immediately; chunks are written across. -/
def pipeLoop (w : Nat → Nat × Bool) (k : Nat) : List PipeMsg → PipeOut
  | [] => ⟨[], [], [], false, false⟩
  | (.client, none) :: _ => ⟨[], [], [], true, true⟩
  | (.client, some d) :: rest =>
      let out := pipeLoop w (k + 1) rest
      ⟨d :: out.dstWrites, out.srcWrites, w k :: out.writeResults,
        out.deadlineSet, out.returned⟩
  | (.backend, none) :: _ => ⟨[], [], [], false, true⟩
  | (.backend, some d) :: rest =>
      let out := pipeLoop w (k + 1) rest
      ⟨out.dstWrites, d :: out.srcWrites, w k :: out.writeResults,
        out.deadlineSet, out.returned⟩

/-- The side of the first `nil` sentinel in a dispatch trace, if any. -/
def firstEnd (msgs : List PipeMsg) : Option Side :=
  ((msgs.dropWhile fun m => m.2.isSome).head?).map (fun m => m.1)

/-- `listener.Accept()` outcome as consumed by the acceptor loop
(utpools.go:69-75): success, or an error classified by
`nerr, ok := err.(net.Error); ok && nerr.Timeout()`. -/
inductive AcceptResult where
  | ok
  | err (timeout : Bool)
deriving DecidableEq, Repr

/-- Observable behaviour of the acceptor goroutine: how many sessions it
spawned (`go func()...handleConn`, utpools.go:77-81) and whether the loop
hit `break` (utpools.go:72). -/
structure AcceptOut where
  spawned : Nat
  stopped : Bool
deriving DecidableEq, Repr

/-- The acceptor loop (utpools.go:67-83) over a trace of accept outcomes:
timeout-classified failure breaks; any other failure `continue`s without
spawning; success spawns one session goroutine and continues. A trace with
no timeout failure is a still-running prefix (`stopped = false`). -/
def acceptLoop : List AcceptResult → AcceptOut
  | [] => ⟨0, false⟩
  | .ok :: rest =>
      let out := acceptLoop rest
      ⟨out.spawned + 1, out.stopped⟩
  | .err true :: _ => ⟨0, true⟩
  | .err false :: rest => acceptLoop rest

/-- An effect performed by one session's `handleConn` (utpools.go:111-126);
the session touches nothing but its own two connections and the shared
pool's `Get`, and never exits the process. -/
inductive SessionEffect where
  | getCall
  | pipeRun
  | closeClient
deriving DecidableEq, Repr

/-- `handleConn` (utpools.go:111-126) as a function of whether `pool.Get()`
succeeded: the effect list in execution order (the deferred `conn.Close()`
runs when the function returns, on both paths) and whether a non-nil error
was returned. On `Get` failure it returns the error before `Pipe` is ever
called. -/
def handleConn (acquireOk : Bool) : List SessionEffect × Bool :=
  if acquireOk then ([.getCall, .pipeRun, .closeClient], false)
  else ([.getCall, .closeClient], true)

/-- Scheduler-visible events of one accepted connection's lifecycle against
the shutdown coordinator (utpools.go:77-81 and 94-102): the acceptor's
`go func()` spawn, the goroutine's `connWaitGroup.Add(1)` and
`connWaitGroup.Done()`, and the coordinator's `connWaitGroup.Wait()`
returning. -/
inductive DrainEv where
  | spawn
  | add
  | done
  | waitRet
deriving DecidableEq, Repr

/-- Which event orders the code admits for one session (flags: has the
spawn / the Add / the Done / the Wait-return already happened). Program
order inside the spawned goroutine forces `add` after `spawn` and `done`
after `add` (utpools.go:77-81); nothing orders `add` against the rest of
the program, because the `Add(1)` is the spawned goroutine's own first
statement, not the acceptor's. `WaitGroup.Wait` returns exactly when the
counter is zero, i.e. when the Adds and Dones so far balance. -/
def validFrom (spawned added doneSeen waited : Bool) : List DrainEv → Bool
  | [] => true
  | .spawn :: r => !spawned && validFrom true added doneSeen waited r
  | .add :: r => spawned && !added && validFrom spawned true doneSeen waited r
  | .done :: r => added && !doneSeen && validFrom spawned added true waited r
  | .waitRet :: r =>
      (added == doneSeen) && !waited && validFrom spawned added doneSeen true r

/-- A trace of one session's lifecycle interleaved with the coordinator's
`Wait` that the code admits. -/
def validTrace (t : List DrainEv) : Bool :=
  validFrom false false false false t

/-- Whether `Wait` returns at a point where the session has been spawned
but has not yet executed its `Add(1)`: the coordinator observed a zero
count while a spawned session was unregistered. -/
def waitSeesUnregistered (spawned added : Bool) : List DrainEv → Bool
  | [] => false
  | .waitRet :: r => (spawned && !added) || waitSeesUnregistered spawned added r
  | .spawn :: r => waitSeesUnregistered true added r
  | .add :: r => waitSeesUnregistered spawned true r
  | .done :: r => waitSeesUnregistered spawned added r

/-- An effect of the `main` shutdown path (utpools.go:62-65 and 88-108). -/
inductive MainEffect where
  | setListenerDeadlineNow
  | removeSocketFile
  | listenerClose
  | poolsRelease
deriving DecidableEq, Repr

/-- A statement of the straight-line shutdown path: an effect, or
`os.Exit(code)`. -/
inductive MainStmt where
  | eff (e : MainEffect)
  | exitStmt (code : Nat)
deriving DecidableEq, Repr

/-- Go execution of a straight-line body with a registered deferred list:
falling off the end runs the deferred functions (and returns no exit code
of its own); `os.Exit` terminates the process immediately — deferred
functions are NOT run (Go `os.Exit` documentation). -/
def runGo (deferred : List MainEffect) : List MainStmt → List MainEffect × Option Nat
  | [] => (deferred, none)
  | .eff e :: rest =>
      let out := runGo deferred rest
      (e :: out.1, out.2)
  | .exitStmt c :: _ => ([], some c)

/-- The deferred cleanup registered by `main` (utpools.go:62-65):
`listener.Close()` then `pools.Release()`. -/
def mainDeferred : List MainEffect := [.listenerClose, .poolsRelease]

/-- The shutdown path of `main` after a termination signal
(utpools.go:88-108): set the listener deadline to now, run the
`select` race between the shutdown timer `tt.C` and the drain `wait`
channel — both of whose branches are empty, so `timerWins` has no effect on
the statements — then `os.Remove` the socket file, `break` out of the
signal loop, and `os.Exit(0)`. -/
def shutdownBody (_timerWins : Bool) : List MainStmt :=
  [.eff .setListenerDeadlineNow, .eff .removeSocketFile, .exitStmt 0]

/-- `main`'s observable shutdown: effects performed and process exit code. -/
def mainShutdown (timerWins : Bool) : List MainEffect × Option Nat :=
  runGo mainDeferred (shutdownBody timerWins)

example :
    chanFromConn true (fun _ => true) [.ok [7, 8], .err false] =
      ⟨[some [7, 8], none], [], true, true⟩ := by
  decide

example :
    chanFromConn false (fun _ => true) [.ok [7], .err true] =
      ⟨[some [7]], [], true, false⟩ := by
  decide

example :
    chanFromConn true (fun _ => false) [.ok [7], .ok [9], .err false] =
      ⟨[none], [[7], [9]], true, true⟩ := by
  decide

example :
    chanFromConn true (fun _ => true) [.ok [], .ok [3]] =
      ⟨[some [3]], [], false, false⟩ := by
  decide

example :
    pipeLoop (fun _ => (0, false)) 0
      [(.client, some [1]), (.backend, some [2]), (.client, none)] =
      ⟨[[1]], [[2]], [(0, false), (0, false)], true, true⟩ := by
  decide

example :
    pipeLoop (fun _ => (0, false)) 0
      [(.backend, some [2]), (.backend, none), (.client, some [9])] =
      ⟨[], [[2]], [(0, false)], false, true⟩ := by
  decide

example :
    acceptLoop [.ok, .err false, .ok, .err true, .ok] = ⟨2, true⟩ := by
  decide

example : handleConn false = ([.getCall, .closeClient], true) := by decide

example : validTrace [.spawn, .add, .done, .waitRet] = true := by decide

example : validTrace [.add, .spawn] = false := by decide

example : validTrace [.spawn, .add, .waitRet, .done] = false := by decide

example : mainShutdown true =
    ([.setListenerDeadlineNow, .removeSocketFile], some 0) := by decide

theorem pipeLoop_dstWrites (w : Nat → Nat × Bool) (k : Nat)
    (msgs : List PipeMsg) :
    (pipeLoop w k msgs).dstWrites =
      (msgs.takeWhile fun m => m.2.isSome).filterMap
        (fun m => if m.1 = Side.client then m.2 else none) := by
  induction msgs generalizing k with
  | nil => rfl
  | cons m rest ih =>
      obtain ⟨s, d⟩ := m
      cases s <;> cases d <;>
        simp [pipeLoop, List.takeWhile_cons, List.filterMap_cons, ih]

theorem pipeLoop_srcWrites (w : Nat → Nat × Bool) (k : Nat)
    (msgs : List PipeMsg) :
    (pipeLoop w k msgs).srcWrites =
      (msgs.takeWhile fun m => m.2.isSome).filterMap
        (fun m => if m.1 = Side.backend then m.2 else none) := by
  induction msgs generalizing k with
  | nil => rfl
  | cons m rest ih =>
      obtain ⟨s, d⟩ := m
      cases s <;> cases d <;>
        simp [pipeLoop, List.takeWhile_cons, List.filterMap_cons, ih]

theorem pipeLoop_deadlineSet (w : Nat → Nat × Bool) (k : Nat)
    (msgs : List PipeMsg) :
    (pipeLoop w k msgs).deadlineSet =
      decide (firstEnd msgs = some Side.client) := by
  induction msgs generalizing k with
  | nil => rfl
  | cons m rest ih =>
      obtain ⟨s, d⟩ := m
      cases s <;> cases d <;>
        simp [pipeLoop, firstEnd, List.dropWhile_cons, ih]

theorem pipeLoop_returned (w : Nat → Nat × Bool) (k : Nat)
    (msgs : List PipeMsg) :
    (pipeLoop w k msgs).returned = (firstEnd msgs).isSome := by
  induction msgs generalizing k with
  | nil => rfl
  | cons m rest ih =>
      obtain ⟨s, d⟩ := m
      cases s <;> cases d <;>
        simp [pipeLoop, firstEnd, List.dropWhile_cons, ih]

/-- Had `main` returned normally instead of calling `os.Exit`, the deferred
cleanup — including `pools.Release()` — would have run. -/
theorem runGo_normal_return_runs_deferred :
    runGo mainDeferred [.eff .setListenerDeadlineNow, .eff .removeSocketFile] =
      ([.setListenerDeadlineNow, .removeSocketFile,
        .listenerClose, .poolsRelease], none) := by
  decide

/-- C1: whichever way the timer-vs-drain race goes, the shutdown path
removes the listening socket's backing file and terminates with exit code
0, but it does NOT release the pool connections: `os.Exit(0)`
(utpools.go:108) terminates the process without running the deferred
`pools.Release()` (utpools.go:62-65), so the claimed release never
happens. -/
theorem shutdown_skips_pool_release :
    ∀ tw : Bool,
      (mainShutdown tw).2 = some 0 ∧
      MainEffect.removeSocketFile ∈ (mainShutdown tw).1 ∧
      MainEffect.poolsRelease ∉ (mainShutdown tw).1 ∧
      MainEffect.listenerClose ∉ (mainShutdown tw).1 := by
  decide

/-- C2: because `connWaitGroup.Add(1)` is the first statement of the
spawned goroutine (utpools.go:77-81) rather than happening before the
spawn, the code admits the schedule spawn, Wait-returns, Add, Done — a
valid trace in which the coordinator observes a zero count while a spawned
session has not yet registered, contradicting the claim. -/
theorem drain_wait_can_miss_spawned_session :
    validTrace [.spawn, .waitRet, .add, .done] = true ∧
    waitSeesUnregistered false false [.spawn, .waitRet, .add, .done] = true := by
  decide

/-- C7: when `pool.Get()` fails, `handleConn` (utpools.go:111-126) returns
a non-nil error, the deferred `conn.Close()` still closes the client
connection, `Pipe` is never run, and `Get` is called exactly once (no
retry); the effect list shows the session touches nothing global, so no
other session is affected and the process does not terminate. -/
theorem acquire_failure_ends_session (ok : Bool) (h : ok = false) :
    (handleConn ok).2 = true ∧
    SessionEffect.closeClient ∈ (handleConn ok).1 ∧
    SessionEffect.pipeRun ∉ (handleConn ok).1 ∧
    (handleConn ok).1.count SessionEffect.getCall = 1 ∧
    (handleConn ok).1 = [SessionEffect.getCall, SessionEffect.closeClient] := by
  subst h
  decide

theorem acquire_failure_ends_session_witness :
    (false = false) ∧
    ((handleConn false).2 = true ∧
      SessionEffect.closeClient ∈ (handleConn false).1 ∧
      SessionEffect.pipeRun ∉ (handleConn false).1 ∧
      (handleConn false).1.count SessionEffect.getCall = 1 ∧
      (handleConn false).1 = [SessionEffect.getCall, SessionEffect.closeClient]) :=
  ⟨rfl, acquire_failure_ends_session false rfl⟩

/-- C8: the acceptor loop stops exactly when some accept failure is
timeout-classified, and the sessions it spawns are exactly one per
successful accept before that first timeout failure — non-timeout failures
spawn nothing and are retried. -/
theorem acceptor_stops_iff_timeout (evs : List AcceptResult) :
    (acceptLoop evs).stopped = evs.contains (AcceptResult.err true) ∧
    (acceptLoop evs).spawned =
      ((evs.takeWhile fun r => !(r == AcceptResult.err true)).count
        AcceptResult.ok) := by
  induction evs with
  | nil => exact ⟨rfl, rfl⟩
  | cons r rest ih =>
      obtain ⟨ih1, ih2⟩ := ih
      cases r with
      | ok =>
          have h1 : (AcceptResult.err true == AcceptResult.ok) = false := rfl
          have h2 : (!(AcceptResult.ok == AcceptResult.err true)) = true := rfl
          have h3 : (AcceptResult.ok == AcceptResult.ok) = true := rfl
          simp [acceptLoop, List.contains_cons, List.takeWhile_cons,
            List.count_cons, h1, h2, h3, ih1, ih2]
      | err t =>
          cases t with
          | false =>
              have h1 :
                  (AcceptResult.err true == AcceptResult.err false) = false := rfl
              have h2 :
                  (!(AcceptResult.err false == AcceptResult.err true)) = true :=
                rfl
              have h3 :
                  (AcceptResult.err false == AcceptResult.ok) = false := rfl
              simp [acceptLoop, List.contains_cons, List.takeWhile_cons,
                List.count_cons, h1, h2, h3, ih1, ih2]
          | true =>
              have h1 :
                  (AcceptResult.err true == AcceptResult.err true) = true := rfl
              have h2 :
                  (!(AcceptResult.err true == AcceptResult.err true)) = false :=
                rfl
              simp [acceptLoop, List.contains_cons, List.takeWhile_cons, h1, h2]

/-- C4: the dispatch loop writes every client-pump chunk to the backend and
every backend-pump chunk to the client, in order, up to the first `nil`
sentinel; it sets the 10-second grace deadline on the backend exactly when
that first sentinel came from the client pump, and it returns exactly when
some sentinel arrived (immediately, with no deadline, when it came from the
backend pump). -/
theorem pipe_dispatch_behavior (w : Nat → Nat × Bool) (k : Nat)
    (msgs : List PipeMsg) :
    (pipeLoop w k msgs).dstWrites =
      (msgs.takeWhile fun m => m.2.isSome).filterMap
        (fun m => if m.1 = Side.client then m.2 else none) ∧
    (pipeLoop w k msgs).srcWrites =
      (msgs.takeWhile fun m => m.2.isSome).filterMap
        (fun m => if m.1 = Side.backend then m.2 else none) ∧
    ((pipeLoop w k msgs).deadlineSet = true ↔ firstEnd msgs = some Side.client) ∧
    ((pipeLoop w k msgs).returned = true ↔ (firstEnd msgs).isSome = true) ∧
    graceDeadlineSeconds = 10 := by
  refine ⟨pipeLoop_dstWrites w k msgs, pipeLoop_srcWrites w k msgs, ?_, ?_, rfl⟩
  · rw [pipeLoop_deadlineSet]
    exact decide_eq_true_iff
  · rw [pipeLoop_returned]

/-- C10: the dispatch loop never inspects the values its `dst.Write` /
`src.Write` calls return — every observable apart from the recorded write
results is the same under any two write-result oracles — and it terminates
only on receiving a `nil` sentinel from one of the pumps. -/
theorem pipe_ignores_write_results (w w₂ : Nat → Nat × Bool) (k k₂ : Nat)
    (msgs : List PipeMsg) :
    (pipeLoop w k msgs).dstWrites = (pipeLoop w₂ k₂ msgs).dstWrites ∧
    (pipeLoop w k msgs).srcWrites = (pipeLoop w₂ k₂ msgs).srcWrites ∧
    (pipeLoop w k msgs).deadlineSet = (pipeLoop w₂ k₂ msgs).deadlineSet ∧
    (pipeLoop w k msgs).returned = (pipeLoop w₂ k₂ msgs).returned ∧
    ((pipeLoop w k msgs).returned = true ↔ firstEnd msgs ≠ none) := by
  refine ⟨?_, ?_, ?_, ?_, ?_⟩
  · rw [pipeLoop_dstWrites, pipeLoop_dstWrites]
  · rw [pipeLoop_srcWrites, pipeLoop_srcWrites]
  · rw [pipeLoop_deadlineSet, pipeLoop_deadlineSet]
  · rw [pipeLoop_returned, pipeLoop_returned]
  · rw [pipeLoop_returned, Option.isSome_iff_ne_none]

theorem pumpLoop_cons_err (buf : List Nat) (ready : Nat → Bool) (k : Nat)
    (t : Bool) (rest : List ReadResult) :
    pumpLoop buf ready k (ReadResult.err t :: rest) =
      if t then ⟨[], [], true⟩ else ⟨[none], [], true⟩ := rfl

theorem pumpLoop_cons_ok_nil (buf : List Nat) (ready : Nat → Bool) (k : Nat)
    (rest : List ReadResult) :
    pumpLoop buf ready k (ReadResult.ok [] :: rest) =
      pumpLoop buf ready k rest := by
  simp [pumpLoop]

theorem pumpLoop_cons_ok_ready (buf : List Nat) (ready : Nat → Bool) (k : Nat)
    (d : List Nat) (rest : List ReadResult) (hd : d ≠ [])
    (hr : ready k = true) :
    pumpLoop buf ready k (ReadResult.ok d :: rest) =
      ⟨some d :: (pumpLoop (d ++ buf.drop d.length) ready (k + 1) rest).sent,
        (pumpLoop (d ++ buf.drop d.length) ready (k + 1) rest).dropped,
        (pumpLoop (d ++ buf.drop d.length) ready (k + 1) rest).finished⟩ := by
  have hpos : 0 < d.length := List.length_pos.mpr hd
  have htake : (d ++ buf.drop d.length).take d.length = d :=
    List.take_left d (buf.drop d.length)
  simp [pumpLoop, hpos, htake, hr]

theorem pumpLoop_cons_ok_notReady (buf : List Nat) (ready : Nat → Bool)
    (k : Nat) (d : List Nat) (rest : List ReadResult) (hd : d ≠ [])
    (hr : ready k = false) :
    pumpLoop buf ready k (ReadResult.ok d :: rest) =
      ⟨(pumpLoop (d ++ buf.drop d.length) ready (k + 1) rest).sent,
        d :: (pumpLoop (d ++ buf.drop d.length) ready (k + 1) rest).dropped,
        (pumpLoop (d ++ buf.drop d.length) ready (k + 1) rest).finished⟩ := by
  have hpos : 0 < d.length := List.length_pos.mpr hd
  have htake : (d ++ buf.drop d.length).take d.length = d :=
    List.take_left d (buf.drop d.length)
  simp [pumpLoop, hpos, htake, hr]

/-- Every chunk a pump ever delivers on its channel is the byte list of one
of its successful reads, and is nonempty. -/
theorem pumpLoop_sent_mem_ok (buf : List Nat) (ready : Nat → Bool) (k : Nat)
    (reads : List ReadResult) :
    ∀ d, some d ∈ (pumpLoop buf ready k reads).sent →
      ReadResult.ok d ∈ reads ∧ d ≠ [] := by
  induction reads generalizing buf k with
  | nil => intro d hmem; cases hmem
  | cons r rest ih =>
      cases r with
      | err t =>
          intro d hmem
          rw [pumpLoop_cons_err] at hmem
          cases t with
          | true => cases hmem
          | false =>
              simp only [if_neg Bool.false_ne_true, List.mem_singleton] at hmem
              cases hmem
      | ok e =>
          by_cases he : e = []
          · subst he
            intro d hmem
            rw [pumpLoop_cons_ok_nil] at hmem
            obtain ⟨hin, hne⟩ := ih buf k d hmem
            exact ⟨List.mem_cons_of_mem _ hin, hne⟩
          · by_cases hr : ready k = true
            · intro d hmem
              rw [pumpLoop_cons_ok_ready buf ready k e rest he hr] at hmem
              rcases List.mem_cons.mp hmem with heq | hmem2
              · obtain rfl : e = d := by
                  exact Option.some.inj heq.symm
                exact ⟨List.mem_cons_self _ _, he⟩
              · obtain ⟨hin, hne⟩ := ih (e ++ buf.drop e.length) (k + 1) d hmem2
                exact ⟨List.mem_cons_of_mem _ hin, hne⟩
            · intro d hmem
              have hr2 : ready k = false := by
                cases h : ready k with
                | true => exact absurd h hr
                | false => rfl
              rw [pumpLoop_cons_ok_notReady buf ready k e rest he hr2] at hmem
              obtain ⟨hin, hne⟩ := ih (e ++ buf.drop e.length) (k + 1) d hmem
              exact ⟨List.mem_cons_of_mem _ hin, hne⟩

/-- The pump loop exits once it meets a read error, for every prefix of
successful reads before it. -/
theorem pumpLoop_finished_of_err (buf : List Nat) (ready : Nat → Bool)
    (k : Nat) (pre : List ReadResult) (t : Bool)
    (hok : ∀ r ∈ pre, ∃ d, r = ReadResult.ok d) :
    (pumpLoop buf ready k (pre ++ [ReadResult.err t])).finished = true := by
  induction pre generalizing buf k with
  | nil => cases t <;> rfl
  | cons r rest ih =>
      obtain ⟨d, rfl⟩ := hok r (List.mem_cons_self r rest)
      have hrest : ∀ r ∈ rest, ∃ e, r = ReadResult.ok e := fun r hr =>
        hok r (List.mem_cons_of_mem _ hr)
      rw [List.cons_append]
      by_cases hd : d = []
      · subst hd
        rw [pumpLoop_cons_ok_nil]
        exact ih buf k hrest
      · by_cases hr : ready k = true
        · rw [pumpLoop_cons_ok_ready buf ready k d _ hd hr]
          exact ih (d ++ buf.drop d.length) (k + 1) hrest
        · have hr2 : ready k = false := by
            cases h : ready k with
            | true => exact absurd h hr
            | false => rfl
          rw [pumpLoop_cons_ok_notReady buf ready k d _ hd hr2]
          exact ih (d ++ buf.drop d.length) (k + 1) hrest

/-- Shape of the delivered messages of a pump run that ends in a read
error: data chunks, followed by the `nil` sentinel exactly when the error
was not timeout-classified. -/
theorem pumpLoop_sent_shape (buf : List Nat) (ready : Nat → Bool) (k : Nat)
    (pre : List ReadResult) (t : Bool)
    (hok : ∀ r ∈ pre, ∃ d, r = ReadResult.ok d) :
    ∃ cs : List (List Nat),
      (pumpLoop buf ready k (pre ++ [ReadResult.err t])).sent =
        cs.map some ++ (if t then [] else [none]) := by
  induction pre generalizing buf k with
  | nil =>
      refine ⟨[], ?_⟩
      cases t <;> rfl
  | cons r rest ih =>
      obtain ⟨d, rfl⟩ := hok r (List.mem_cons_self r rest)
      have hrest : ∀ r ∈ rest, ∃ e, r = ReadResult.ok e := fun r hr =>
        hok r (List.mem_cons_of_mem _ hr)
      rw [List.cons_append]
      by_cases hd : d = []
      · subst hd
        rw [pumpLoop_cons_ok_nil]
        exact ih buf k hrest
      · by_cases hr : ready k = true
        · obtain ⟨cs, hcs⟩ := ih (d ++ buf.drop d.length) (k + 1) hrest
          refine ⟨d :: cs, ?_⟩
          rw [pumpLoop_cons_ok_ready buf ready k d _ hd hr]
          simp [hcs]
        · have hr2 : ready k = false := by
            cases h : ready k with
            | true => exact absurd h hr
            | false => rfl
          obtain ⟨cs, hcs⟩ := ih (d ++ buf.drop d.length) (k + 1) hrest
          refine ⟨cs, ?_⟩
          rw [pumpLoop_cons_ok_notReady buf ready k d _ hd hr2]
          simpa using hcs

/-- C3: over any run of successful reads ending in a read error — for any
dispatch readiness and either pump (`hasPool` distinguishes the
backend-facing one) — a chunk is delivered only when the read produced at
least one byte; a non-timeout read failure makes the `nil` sentinel the
last delivered message and stops the pump; a timeout-classified failure
stops the pump with no sentinel ever delivered; in both cases the channel
is closed, and the connection is handed back via `pool.Put` exactly for the
pump constructed with a pool (`Pipe` passes the pool only for the
backend-facing pump, utpools.go:166-167). -/
theorem pump_read_outcomes (hasPool : Bool) (ready : Nat → Bool)
    (pre : List ReadResult) (t : Bool)
    (hok : ∀ r ∈ pre, ∃ d, r = ReadResult.ok d) :
    (∀ d, some d ∈
        (chanFromConn hasPool ready (pre ++ [ReadResult.err t])).sent →
        d ≠ []) ∧
    (t = false →
      ((chanFromConn hasPool ready (pre ++ [ReadResult.err t])).sent).getLast?
        = some none) ∧
    (t = true →
      none ∉ (chanFromConn hasPool ready (pre ++ [ReadResult.err t])).sent) ∧
    (chanFromConn hasPool ready (pre ++ [ReadResult.err t])).closed = true ∧
    (chanFromConn hasPool ready (pre ++ [ReadResult.err t])).putDone
      = hasPool := by
  have hfin :
      (pumpLoop (List.replicate readBufSize 0) ready 0
        (pre ++ [ReadResult.err t])).finished = true :=
    pumpLoop_finished_of_err _ ready 0 pre t hok
  obtain ⟨cs, hcs⟩ :=
    pumpLoop_sent_shape (List.replicate readBufSize 0) ready 0 pre t hok
  refine ⟨?_, ?_, ?_, ?_, ?_⟩
  · intro d hmem
    exact (pumpLoop_sent_mem_ok _ ready 0 _ d hmem).2
  · intro ht
    subst ht
    show (pumpLoop (List.replicate readBufSize 0) ready 0
        (pre ++ [ReadResult.err false])).sent.getLast? = some none
    rw [hcs]
    simp
  · intro ht
    subst ht
    show none ∉ (pumpLoop (List.replicate readBufSize 0) ready 0
        (pre ++ [ReadResult.err true])).sent
    rw [hcs]
    simp
  · show (pumpLoop (List.replicate readBufSize 0) ready 0
        (pre ++ [ReadResult.err t])).finished = true
    exact hfin
  · show ((pumpLoop (List.replicate readBufSize 0) ready 0
        (pre ++ [ReadResult.err t])).finished && hasPool) = hasPool
    rw [hfin]
    exact Bool.true_and hasPool

theorem pump_read_outcomes_witness :
    (∀ r ∈ [ReadResult.ok [7]], ∃ d, r = ReadResult.ok d) ∧
    ((∀ d, some d ∈
        (chanFromConn true (fun _ => true)
          ([ReadResult.ok [7]] ++ [ReadResult.err false])).sent →
        d ≠ []) ∧
    (false = false →
      ((chanFromConn true (fun _ => true)
          ([ReadResult.ok [7]] ++ [ReadResult.err false])).sent).getLast?
        = some none) ∧
    (false = true →
      none ∉ (chanFromConn true (fun _ => true)
          ([ReadResult.ok [7]] ++ [ReadResult.err false])).sent) ∧
    (chanFromConn true (fun _ => true)
        ([ReadResult.ok [7]] ++ [ReadResult.err false])).closed = true ∧
    (chanFromConn true (fun _ => true)
        ([ReadResult.ok [7]] ++ [ReadResult.err false])).putDone = true) :=
  ⟨fun _ hr => ⟨[7], List.mem_singleton.mp hr⟩,
    pump_read_outcomes true (fun _ => true) [ReadResult.ok [7]] false
      (fun _ hr => ⟨[7], List.mem_singleton.mp hr⟩)⟩

/-- C6: when the dispatch loop is not ready within the 10-second publish
window (`ready k = false`, the `time.After` arm of utpools.go:146-150), the
chunk of a successful nonempty read is abandoned — it goes to `dropped`,
never to the channel — and the pump continues with the remaining reads
exactly as before: it neither stops nor retries the publish. -/
theorem publish_timeout_drops_chunk (buf : List Nat) (ready : Nat → Bool)
    (k : Nat) (d : List Nat) (rest : List ReadResult)
    (hd : d ≠ []) (hr : ready k = false) :
    (pumpLoop buf ready k (ReadResult.ok d :: rest)).sent =
        (pumpLoop (d ++ buf.drop d.length) ready (k + 1) rest).sent ∧
    (pumpLoop buf ready k (ReadResult.ok d :: rest)).dropped =
        d :: (pumpLoop (d ++ buf.drop d.length) ready (k + 1) rest).dropped ∧
    (pumpLoop buf ready k (ReadResult.ok d :: rest)).finished =
        (pumpLoop (d ++ buf.drop d.length) ready (k + 1) rest).finished ∧
    publishTimeoutSeconds = 10 := by
  rw [pumpLoop_cons_ok_notReady buf ready k d rest hd hr]
  exact ⟨rfl, rfl, rfl, rfl⟩

theorem publish_timeout_drops_chunk_witness :
    ([5] : List Nat) ≠ [] ∧
    (fun _ : Nat => false) 0 = false ∧
    ((pumpLoop (List.replicate 8 0) (fun _ => false) 0
        [ReadResult.ok [5], ReadResult.ok [6]]).sent =
      (pumpLoop ([5] ++ (List.replicate 8 0).drop ([5] : List Nat).length)
        (fun _ => false) 1 [ReadResult.ok [6]]).sent ∧
    (pumpLoop (List.replicate 8 0) (fun _ => false) 0
        [ReadResult.ok [5], ReadResult.ok [6]]).dropped =
      [5] :: (pumpLoop ([5] ++ (List.replicate 8 0).drop ([5] : List Nat).length)
        (fun _ => false) 1 [ReadResult.ok [6]]).dropped ∧
    (pumpLoop (List.replicate 8 0) (fun _ => false) 0
        [ReadResult.ok [5], ReadResult.ok [6]]).finished =
      (pumpLoop ([5] ++ (List.replicate 8 0).drop ([5] : List Nat).length)
        (fun _ => false) 1 [ReadResult.ok [6]]).finished ∧
    publishTimeoutSeconds = 10) :=
  ⟨by decide, rfl,
    publish_timeout_drops_chunk (List.replicate 8 0) (fun _ => false) 0 [5]
      [ReadResult.ok [6]] (by decide) rfl⟩

/-- Every chunk a pump delivers is exactly the byte list one of its reads
returned, and distinct deliveries respect read order: the delivered data
chunks form a sublist of the successful reads' data. -/
theorem pumpLoop_sent_sublist (buf : List Nat) (ready : Nat → Bool) (k : Nat)
    (reads : List ReadResult) :
    ((pumpLoop buf ready k reads).sent.filterMap id).Sublist
      (reads.filterMap fun r => match r with
        | ReadResult.ok d => some d
        | ReadResult.err _ => none) := by
  induction reads generalizing buf k with
  | nil => simp [pumpLoop]
  | cons r rest ih =>
      cases r with
      | err t =>
          rw [pumpLoop_cons_err]
          cases t <;> simp
      | ok d =>
          by_cases hd : d = []
          · subst hd
            rw [pumpLoop_cons_ok_nil]
            rw [List.filterMap_cons]
            exact List.Sublist.cons _ (ih buf k)
          · by_cases hr : ready k = true
            · rw [pumpLoop_cons_ok_ready buf ready k d rest hd hr,
                List.filterMap_cons]
              show (d :: _).Sublist (d :: _)
              exact List.Sublist.cons₂ d (ih (d ++ buf.drop d.length) (k + 1))
            · have hr2 : ready k = false := by
                cases h : ready k with
                | true => exact absurd h hr
                | false => rfl
              rw [pumpLoop_cons_ok_notReady buf ready k d rest hd hr2,
                List.filterMap_cons]
              exact List.Sublist.cons _ (ih (d ++ buf.drop d.length) (k + 1))

/-- C9: every chunk a pump publishes is a fresh copy of exactly the bytes
its read returned — `res := make([]byte, n); copy(res, b[:n])` gives a list
equal to the read's data, so later reuse of the shared 1024-byte buffer
cannot alter it — its length is between 1 and 1024 whenever the reads fit
the buffer, and every published chunk is a `some` value, disjoint from the
`none` (`nil`) sentinel by construction. -/
theorem pump_chunks_exact_copies (hasPool : Bool) (ready : Nat → Bool)
    (reads : List ReadResult)
    (hlen : ∀ d, ReadResult.ok d ∈ reads → d.length ≤ readBufSize) :
    (((chanFromConn hasPool ready reads).sent).filterMap id).Sublist
      (reads.filterMap fun r => match r with
        | ReadResult.ok d => some d
        | ReadResult.err _ => none) ∧
    (∀ d, some d ∈ (chanFromConn hasPool ready reads).sent →
      1 ≤ d.length ∧ d.length ≤ readBufSize) := by
  refine ⟨pumpLoop_sent_sublist _ ready 0 reads, ?_⟩
  intro d hmem
  obtain ⟨hin, hne⟩ :=
    pumpLoop_sent_mem_ok (List.replicate readBufSize 0) ready 0 reads d hmem
  exact ⟨List.length_pos.mpr hne, hlen d hin⟩

theorem pump_chunks_exact_copies_witness :
    (∀ d, ReadResult.ok d ∈
        [ReadResult.ok [1, 2], ReadResult.ok [3], ReadResult.err false] →
        d.length ≤ readBufSize) ∧
    ((((chanFromConn false (fun _ => true)
        [ReadResult.ok [1, 2], ReadResult.ok [3],
          ReadResult.err false]).sent).filterMap id).Sublist
      ([ReadResult.ok [1, 2], ReadResult.ok [3],
          ReadResult.err false].filterMap fun r => match r with
        | ReadResult.ok d => some d
        | ReadResult.err _ => none) ∧
    (∀ d, some d ∈ (chanFromConn false (fun _ => true)
        [ReadResult.ok [1, 2], ReadResult.ok [3],
          ReadResult.err false]).sent →
      1 ≤ d.length ∧ d.length ≤ readBufSize)) := by
  have hlen : ∀ d, ReadResult.ok d ∈
      [ReadResult.ok [1, 2], ReadResult.ok [3], ReadResult.err false] →
      d.length ≤ readBufSize := by
    intro d hd
    simp only [List.mem_cons, List.not_mem_nil, or_false] at hd
    rcases hd with h | h | h
    · cases h
      decide
    · cases h
      decide
    · cases h
  exact ⟨hlen, pump_chunks_exact_copies false (fun _ => true)
    [ReadResult.ok [1, 2], ReadResult.ok [3], ReadResult.err false] hlen⟩

/-- When every read succeeds with at least one byte and the dispatch loop
is always ready, the pump delivers exactly the reads' data, in order. -/
theorem pumpLoop_all_ready_sent (buf : List Nat) (ready : Nat → Bool)
    (k : Nat) (reads : List ReadResult)
    (hready : ∀ n, ready n = true)
    (hok : ∀ r ∈ reads, ∃ d, r = ReadResult.ok d ∧ d ≠ []) :
    (pumpLoop buf ready k reads).sent =
      (reads.filterMap fun r => match r with
        | ReadResult.ok d => some d
        | ReadResult.err _ => none).map some := by
  induction reads generalizing buf k with
  | nil => rfl
  | cons r rest ih =>
      obtain ⟨d, rfl, hd⟩ := hok r (List.mem_cons_self r rest)
      have hrest : ∀ r ∈ rest, ∃ e, r = ReadResult.ok e ∧ e ≠ [] := fun r hr =>
        hok r (List.mem_cons_of_mem _ hr)
      rw [pumpLoop_cons_ok_ready buf ready k d rest hd (hready k)]
      show some d :: (pumpLoop (d ++ buf.drop d.length) ready (k + 1) rest).sent
        = _
      rw [ih (d ++ buf.drop d.length) (k + 1) hrest]
      rfl

/-- A trace consisting only of client-pump chunks is written to the
backend connection verbatim. -/
theorem pipeLoop_all_client_chunks (w : Nat → Nat × Bool) (k : Nat)
    (cs : List (List Nat)) :
    (pipeLoop w k (cs.map fun d => (Side.client, some d))).dstWrites = cs := by
  induction cs generalizing k with
  | nil => rfl
  | cons c rest ih => simp [pipeLoop, ih]

/-- A trace consisting only of backend-pump chunks is written to the
client connection verbatim. -/
theorem pipeLoop_all_backend_chunks (w : Nat → Nat × Bool) (k : Nat)
    (cs : List (List Nat)) :
    (pipeLoop w k (cs.map fun d => (Side.backend, some d))).srcWrites = cs := by
  induction cs generalizing k with
  | nil => rfl
  | cons c rest ih => simp [pipeLoop, ih]

/-- C5: within one direction of one Relay, composing a pump with the
dispatch loop forwards the chunks in exactly the order they were read,
byte-for-byte: the bytes written to the receiving connection are the bytes
the reads returned, unmodified and uninterpreted, in both directions. -/
theorem relay_forwards_in_order_unmodified (w : Nat → Nat × Bool) (k : Nat)
    (ready : Nat → Bool) (reads : List ReadResult)
    (hready : ∀ n, ready n = true)
    (hok : ∀ r ∈ reads, ∃ d, r = ReadResult.ok d ∧ d ≠ []) :
    (pipeLoop w k
        (((chanFromConn false ready reads).sent).map
          fun m => (Side.client, m))).dstWrites
      = reads.filterMap (fun r => match r with
        | ReadResult.ok d => some d
        | ReadResult.err _ => none) ∧
    (pipeLoop w k
        (((chanFromConn true ready reads).sent).map
          fun m => (Side.backend, m))).srcWrites
      = reads.filterMap (fun r => match r with
        | ReadResult.ok d => some d
        | ReadResult.err _ => none) := by
  constructor
  · show (pipeLoop w k
        (((pumpLoop (List.replicate readBufSize 0) ready 0 reads).sent).map
          fun m => (Side.client, m))).dstWrites = _
    rw [pumpLoop_all_ready_sent _ ready 0 reads hready hok, List.map_map]
    exact pipeLoop_all_client_chunks w k _
  · show (pipeLoop w k
        (((pumpLoop (List.replicate readBufSize 0) ready 0 reads).sent).map
          fun m => (Side.backend, m))).srcWrites = _
    rw [pumpLoop_all_ready_sent _ ready 0 reads hready hok, List.map_map]
    exact pipeLoop_all_backend_chunks w k _

theorem relay_forwards_in_order_unmodified_witness :
    (∀ n : Nat, (fun _ : Nat => true) n = true) ∧
    (∀ r ∈ [ReadResult.ok [1, 2], ReadResult.ok [3]],
      ∃ d, r = ReadResult.ok d ∧ d ≠ []) ∧
    ((pipeLoop (fun _ => (0, false)) 0
        (((chanFromConn false (fun _ => true)
          [ReadResult.ok [1, 2], ReadResult.ok [3]]).sent).map
            fun m => (Side.client, m))).dstWrites
      = [ReadResult.ok [1, 2], ReadResult.ok [3]].filterMap
          (fun r => match r with
            | ReadResult.ok d => some d
            | ReadResult.err _ => none) ∧
    (pipeLoop (fun _ => (0, false)) 0
        (((chanFromConn true (fun _ => true)
          [ReadResult.ok [1, 2], ReadResult.ok [3]]).sent).map
            fun m => (Side.backend, m))).srcWrites
      = [ReadResult.ok [1, 2], ReadResult.ok [3]].filterMap
          (fun r => match r with
            | ReadResult.ok d => some d
            | ReadResult.err _ => none)) := by
  have hok : ∀ r ∈ [ReadResult.ok [1, 2], ReadResult.ok [3]],
      ∃ d, r = ReadResult.ok d ∧ d ≠ [] := by
    intro r hr
    simp only [List.mem_cons, List.not_mem_nil, or_false] at hr
    rcases hr with h | h
    · exact ⟨[1, 2], h, by decide⟩
    · exact ⟨[3], h, by decide⟩
  exact ⟨fun n => rfl, hok,
    relay_forwards_in_order_unmodified (fun _ => (0, false)) 0 (fun _ => true)
      [ReadResult.ok [1, 2], ReadResult.ok [3]] (fun n => rfl) hok⟩

end Utpools
